import Mathlib

/-!
Verification of the RustSend transfer protocol engine.

This file gives a shallow embedding, in Lean 4, of the core of the
RustSend repository (a Tauri + tonic file-transfer application):

* `src-tauri/src/server.rs` — the gRPC server: the chunked-upload
  session (`upload_file`), the per-path write-lock map
  (`active_uploads : DashMap<PathBuf, ()>`), and the sandboxed
  directory listing (`list_dir`);
* `src-tauri/src/grpc_client.rs` — the client: the chunk-producing
  read loop inside `upload_local_file` and its local path correction;
* `src-tauri/src/commands.rs` — the local directory listing
  (`list_local_dir`).

Paths are modelled as lists of components (`Path := List String`);
filesystem and transport effects are modelled by explicit oracles
(`Env`) and by an event log of the mutating calls the code issues, in
order.  Rust strings stay `String`; splitting on `'/'` is done by a
structurally recursive helper so that concrete inputs evaluate.
-/

namespace RustSend

/-- A filesystem path, as the list of its components (the model of
`std::path::PathBuf`; paths are taken relative to the filesystem
root, so a `PathBuf` produced by joining onto an absolute base is the
list of components of that absolute path). -/
abbrev Path := List String

/-- Splitting helper: cut a character list at every `'/'`
(the component decomposition a `PathBuf` applies to a pushed string). -/
def splitSlashAux : List Char → List Char → List String
  | [], acc => [String.mk acc.reverse]
  | c :: cs, acc =>
    if c = '/' then String.mk acc.reverse :: splitSlashAux cs []
    else splitSlashAux cs (c :: acc)

/-- Components of a path string: split on `'/'` and drop the empty
pieces (matching how `Path::components` ignores empty segments). -/
def splitComponents (s : String) : List String :=
  (splitSlashAux s.data []).filter (fun c => c ≠ "")

/-- Model of `str::trim_start_matches('/')`: drop every leading `'/'`. -/
def trim_start_matches_sep (s : String) : String :=
  String.mk (s.data.dropWhile (fun c => c = '/'))

/-- Model of `PathBuf::join`/`push` with a string argument: an
absolute argument (leading `'/'`) replaces the base, a relative one
appends its components. -/
def pathJoinStr (p : Path) (s : String) : Path :=
  if s.data.head? = some '/' then splitComponents s
  else p ++ splitComponents s

/-- Resolution of `.` and `..` segments, used to model what
`std::fs::canonicalize` does to an existing path (symlinks aside). -/
def resolveDots (p : Path) : Path :=
  p.foldl (fun acc c => if c = ".." then acc.dropLast else if c = "." then acc else acc ++ [c]) []

/-- The protocol message `FileChunk` of `proto/filerpc`:
metadata plus one block of file bytes. -/
structure FileChunk where
  filename : String
  target_dir : String
  data : List Nat
  eof : Bool
deriving DecidableEq

/-- The reply message `UploadStatus`. -/
structure UploadStatus where
  success : Bool
  message : String
deriving DecidableEq

/-- A remote directory entry (`DirEntry` of the proto). -/
structure DirEntry where
  name : String
  is_dir : Bool
deriving DecidableEq

/-- A local directory entry (`LocalDirEntry` in `commands.rs`). -/
structure LocalDirEntry where
  name : String
  is_dir : Bool
  size : Nat
deriving DecidableEq

/-- `tonic::Status` values the embedded code constructs, by code;
`streamError` stands for a transport error surfaced by
`stream.message().await?` itself. -/
inductive Status
  | invalidArgument (m : String)
  | unavailable (m : String)
  | internal (m : String)
  | notFound (m : String)
  | permissionDenied (m : String)
  | streamError (m : String)
deriving DecidableEq

/-- The fixed block size of the chunk producer
(`const CHUNK_SIZE: usize = 1024 * 64` in `grpc_client.rs`). -/
def CHUNK_SIZE : Nat := 1024 * 64

/-- Fuel-indexed body of the read loop of `upload_local_file`
(`grpc_client.rs`, the `task::spawn_blocking` closure): each
iteration reads up to `CHUNK_SIZE` bytes; a read returning `0` sets
`eof` and sends a final chunk with empty data.  The fuel only bounds
the recursion; `produce_chunks` supplies enough for it never to run
out. -/
def produce_chunks_fuel (fn td : String) : Nat → List Nat → List FileChunk
  | _, [] => [⟨fn, td, [], true⟩]
  | 0, _ => []
  | fuel + 1, bs =>
    ⟨fn, td, bs.take CHUNK_SIZE, false⟩ :: produce_chunks_fuel fn td fuel (bs.drop CHUNK_SIZE)

/-- The chunk sequence the client's read loop sends for a file whose
contents are `bs` (each successful read is modelled as returning the
full block until the bytes run out). -/
def produce_chunks (fn td : String) (bs : List Nat) : List FileChunk :=
  produce_chunks_fuel fn td bs.length bs

/-- The block decomposition of a byte list into `CHUNK_SIZE` pieces
(fuel-indexed helper). -/
def chunksOfAux : Nat → List Nat → List (List Nat)
  | _, [] => []
  | 0, _ => []
  | fuel + 1, bs => bs.take CHUNK_SIZE :: chunksOfAux fuel (bs.drop CHUNK_SIZE)

/-- The block decomposition of a byte list into `CHUNK_SIZE` pieces:
all blocks full except possibly the last, none empty. -/
def chunksOf (bs : List Nat) : List (List Nat) :=
  chunksOfAux bs.length bs

instance {ε α : Type} [DecidableEq ε] [DecidableEq α] : DecidableEq (Except ε α) := fun a b =>
  match a, b with
  | .error e, .error f => decidable_of_iff (e = f) (by simp)
  | .error _, .ok _ => isFalse (by simp)
  | .ok _, .error _ => isFalse (by simp)
  | .ok x, .ok y => decidable_of_iff (x = y) (by simp)

/-- Filesystem metadata of a directory entry (`is_dir`, byte length). -/
structure Metadata where
  is_dir : Bool
  len : Nat
deriving DecidableEq

/-- One result of the server/local `read_dir` iteration:
either an entry (whose metadata read may itself fail) or an error
from `next_entry` itself. -/
inductive DirEntryRead
  | ok (name : String) (meta : Except String Metadata)
  | err (e : String)
deriving DecidableEq

/-- The filesystem/OS oracle: outcomes of the fallible calls the code
makes.  `canonicalize` models `std::fs::canonicalize`; the three
mutating calls return their error text on failure; `read_dir` yields
the directory iteration. -/
structure Env where
  canonicalize : Path → Except String Path
  create_dir_all : Path → Except String Unit
  file_create : Path → Except String Unit
  write_all : Path → List Nat → Except String Unit
  read_dir : Path → Except String (List DirEntryRead)

/-- A mutating filesystem call issued by the upload session, recorded
in order: directory creation, file creation, or a data write. -/
inductive FsEvent
  | create_dir_all (p : Path)
  | file_create (p : Path)
  | write (p : Path) (data : List Nat)
deriving DecidableEq

/-- One occurrence on the client-streaming request: a delivered
message, or a transport error raised by `stream.message().await`. -/
inductive StreamEvent
  | msg (c : FileChunk)
  | err (e : String)
deriving DecidableEq

/-- Model of `DashMap::contains_key` on the `active_uploads` map
(the map's value type is `()`, so the map is its key set). -/
def dm_contains_key (m : List Path) (p : Path) : Bool :=
  decide (p ∈ m)

/-- Model of `DashMap::insert` on the `active_uploads` map: the key
becomes present (inserting an already-present key keeps the set). -/
def dm_insert (m : List Path) (p : Path) : List Path :=
  if p ∈ m then m else p :: m

/-- Model of `DashMap::remove`. -/
def dm_remove (m : List Path) (p : Path) : List Path :=
  m.erase p

/-- The `if let Some(p) = canonical_final_path.as_ref() { map.remove(p) }`
release pattern repeated at every error branch of `upload_file`. -/
def release_if_locked (cfp : Option Path) (locks : List Path) : List Path :=
  match cfp with
  | some p => dm_remove locks p
  | none => locks

/-- The local variables of one `upload_file` call, together with the
shared lock map and the log of mutating filesystem calls made so far.
`file_path` stands for the open `tokio::fs::File` handle by the path
it was created at. -/
structure SessionSt where
  filename : Option String
  file_path : Option Path
  bytes_written : Nat
  canonical_final_path : Option Path
  locks : List Path
  events : List FsEvent
deriving DecidableEq

/-- What one terminated `upload_file` call leaves behind: its result,
the lock map, and the ordered mutating calls it issued. -/
structure UploadOutcome where
  result : Except Status UploadStatus
  locks : List Path
  events : List FsEvent
deriving DecidableEq

/-- The target directory computed on the first chunk:
`base_path.join(chunk.target_dir.trim_start_matches('/'))`
(`server.rs:84-86`). -/
def uploadDirOf (base_path : Path) (chunk : FileChunk) : Path :=
  pathJoinStr base_path (trim_start_matches_sep chunk.target_dir)

/-- The target file path: `upload_dir.join(&chunk.filename)`
(`server.rs:87`). -/
def finalPathOf (base_path : Path) (chunk : FileChunk) : Path :=
  pathJoinStr (uploadDirOf base_path chunk) chunk.filename

/-- The lock key: `final_path.canonicalize().unwrap_or(final_path)`
(`server.rs:94`). -/
def lockPathOf (env : Env) (base_path : Path) (chunk : FileChunk) : Path :=
  match env.canonicalize (finalPathOf base_path chunk) with
  | .ok p => p
  | .error _ => finalPathOf base_path chunk

/-- Result of processing one received chunk: an early `return`, a
`break` out of the receive loop (`eof`), or continuation. -/
inductive StepRes
  | ret (o : UploadOutcome)
  | brk (st : SessionSt)
  | cont (st : SessionSt)
deriving DecidableEq

/-- The `if filename.is_none() { ... }` first-chunk block of
`upload_file` (`server.rs:77-145`): validate the filename, compute
the paths, take the per-path lock, create the directory and the file;
every error branch releases the lock it just took and returns. -/
def first_chunk_setup (env : Env) (base_path : Path) (st : SessionSt) (chunk : FileChunk) :
    Except UploadOutcome SessionSt :=
  if st.filename.isNone then
    if chunk.filename = "" then
      .error ⟨.error (.invalidArgument "Filename cannot be empty"), st.locks, st.events⟩
    else
      let upload_dir := uploadDirOf base_path chunk
      let final_path := finalPathOf base_path chunk
      let path_to_lock := lockPathOf env base_path chunk
      if dm_contains_key st.locks path_to_lock then
        .error ⟨.error (.unavailable
            "File is currently being written by another client. Try again later."),
          st.locks, st.events⟩
      else
        let locks1 := dm_insert st.locks path_to_lock
        let events1 := st.events ++ [.create_dir_all upload_dir]
        match env.create_dir_all upload_dir with
        | .error e =>
            .error ⟨.error (.internal ("Failed to create directory: " ++ e)),
              release_if_locked (some path_to_lock) locks1, events1⟩
        | .ok _ =>
            let events2 := events1 ++ [.file_create final_path]
            match env.file_create final_path with
            | .error e =>
                .error ⟨.error (.internal ("Could not create file: " ++ e)),
                  release_if_locked (some path_to_lock) locks1, events2⟩
            | .ok _ =>
                .ok ⟨some chunk.filename, some final_path, st.bytes_written,
                  some path_to_lock, locks1, events2⟩
  else .ok st

/-- The write step of the receive loop (`server.rs:148-164`): append
the chunk's data to the open file (releasing the lock on a write
error), then test the `eof` flag. -/
def write_chunk (env : Env) (st : SessionSt) (chunk : FileChunk) : StepRes :=
  match st.file_path with
  | none => if chunk.eof then .brk st else .cont st
  | some fp =>
      let events1 := st.events ++ [.write fp chunk.data]
      match env.write_all fp chunk.data with
      | .error e =>
          .ret ⟨.error (.internal ("Failed to write data: " ++ e)),
            release_if_locked st.canonical_final_path st.locks, events1⟩
      | .ok _ =>
          let st1 : SessionSt :=
            { st with bytes_written := st.bytes_written + chunk.data.length, events := events1 }
          if chunk.eof then .brk st1 else .cont st1

/-- One iteration of the `while let Some(chunk) = stream.message().await?`
loop body. -/
def upload_chunk_step (env : Env) (base_path : Path) (st : SessionSt) (chunk : FileChunk) :
    StepRes :=
  match first_chunk_setup env base_path st chunk with
  | .error o => .ret o
  | .ok st1 => write_chunk env st1 chunk

/-- The code after the receive loop (`server.rs:167-191`): release
the lock and reply with the byte count, or fail `Internal` if no
first chunk ever arrived. -/
def upload_finish (st : SessionSt) : UploadOutcome :=
  match st.canonical_final_path with
  | some p =>
      ⟨.ok ⟨true, "File uploaded successfully. Total bytes written: "
          ++ toString st.bytes_written ++ "."⟩,
        dm_remove st.locks p, st.events⟩
  | none =>
      ⟨.error (.internal "File stream ended without receiving first chunk metadata."),
        st.locks, st.events⟩

/-- The receive loop of `upload_file`: a transport error propagates
through `?` at once (with the state as it stands — in particular the
lock map is left untouched); the stream ending or an `eof` chunk
falls through to `upload_finish`. -/
def upload_loop (env : Env) (base_path : Path) (st : SessionSt) :
    List StreamEvent → UploadOutcome
  | [] => upload_finish st
  | .err e :: _ => ⟨.error (.streamError e), st.locks, st.events⟩
  | .msg chunk :: rest =>
      match upload_chunk_step env base_path st chunk with
      | .ret o => o
      | .brk st1 => upload_finish st1
      | .cont st1 => upload_loop env base_path st1 rest

/-- The `upload_file` handler of `MyFileService` (`server.rs:63-192`),
run against a stream of events, starting from the given
`active_uploads` lock map. -/
def upload_file (env : Env) (base_path : Path) (active_uploads : List Path)
    (stream : List StreamEvent) : UploadOutcome :=
  upload_loop env base_path ⟨none, none, 0, none, active_uploads, []⟩ stream

/-- The path the server joins for a `ListDirRequest`
(`server.rs:203-209`): the base path, extended by the request unless
the request is `"/"` or empty. -/
def full_path_of (base_path : Path) (path_str : String) : Path :=
  if path_str ≠ "/" ∧ path_str ≠ "" then
    pathJoinStr base_path (trim_start_matches_sep path_str)
  else base_path

/-- The entry-collection loop of `list_dir` (`server.rs:243-276`):
a failed `next_entry` is logged and skipped; a failed `metadata`
aborts the whole call with `Internal` through `?`. -/
def serverCollect : List DirEntryRead → List DirEntry → Except Status (List DirEntry)
  | [], acc => .ok acc
  | .ok name meta :: rest, acc =>
      match meta with
      | .error _ => .error (.internal "Could not get file metadata")
      | .ok m => serverCollect rest (acc ++ [⟨name, m.is_dir⟩])
  | .err _ :: rest, acc => serverCollect rest acc

/-- Reading and collecting one directory level on the server
(`server.rs:243-276`). -/
def read_and_collect (env : Env) (p : Path) : Except Status (List DirEntry) :=
  match env.read_dir p with
  | .ok items => serverCollect items []
  | .error e => .error (.internal ("Could not read directory: " ++ e))

/-- The `list_dir` handler of `MyFileService` (`server.rs:195-280`):
canonicalize the base (else `Internal`), canonicalize the joined path
(else `NotFound`), refuse with `PermissionDenied` unless the result
starts with the canonical base, then enumerate. -/
def list_dir (env : Env) (base_path : Path) (path_str : String) :
    Except Status (List DirEntry) :=
  let full_path := full_path_of base_path path_str
  match env.canonicalize base_path with
  | .error _ => .error (.internal "Server base directory is invalid or inaccessible")
  | .ok canonical_base =>
      match env.canonicalize full_path with
      | .error _ => .error (.notFound ("Directory not found or inaccessible: " ++ path_str))
      | .ok canonical_path =>
          if List.isPrefixOf canonical_base canonical_path then
            read_and_collect env canonical_path
          else .error (.permissionDenied "Access to this path is denied")

/-- Model of `name.starts_with('.')`. -/
def startsWithDot (s : String) : Bool :=
  s.data.head? = some '.'

/-- The entry-collection loop of `list_local_dir`
(`commands.rs:54-86`): a failed metadata read is skipped
(`Err(_) => continue`), hidden names other than `.`/`..` are
filtered, and a failed `next_entry` is logged and skipped. -/
def localCollect : List DirEntryRead → List LocalDirEntry → List LocalDirEntry
  | [], acc => acc
  | .ok name meta :: rest, acc =>
      match meta with
      | .error _ => localCollect rest acc
      | .ok m =>
          if startsWithDot name ∧ name ≠ "." ∧ name ≠ ".." then localCollect rest acc
          else localCollect rest (acc ++ [⟨name, m.is_dir, m.len⟩])
  | .err _ :: rest, acc => localCollect rest acc

/-- Rendering of a canonical path for the `list_local_dir` reply
(its `to_string_lossy`). -/
def pathToString (p : Path) : String :=
  "/" ++ String.intercalate "/" p

/-- The `list_local_dir` Tauri command (`commands.rs:24-90`). -/
def list_local_dir (env : Env) (base : Path) (path : String) :
    Except String (List LocalDirEntry × String) :=
  let requested_path := trim_start_matches_sep path
  let full_path := pathJoinStr base requested_path
  match env.canonicalize base with
  | .error e => .error ("Invalid base path: " ++ e)
  | .ok canonical_base =>
      match env.canonicalize full_path with
      | .error e => .error ("Directory not found or inaccessible: " ++ e)
      | .ok canonical_path =>
          if List.isPrefixOf canonical_base canonical_path then
            match env.read_dir canonical_path with
            | .ok items => .ok (localCollect items [], pathToString canonical_path)
            | .error e => .error ("Could not read local directory: " ++ e)
          else .error "Access to this local path is restricted."

/-- Progress of one contender through the lock-acquisition code of
`upload_file` (`server.rs:97-106`): it has not started, has passed
the `contains_key` test, has returned `Unavailable`, or has executed
the `insert` and proceeds to write. -/
inductive AcqPhase
  | start
  | checked
  | failed
  | acquired
deriving DecidableEq

/-- One step of a contender through the two-operation acquisition:
the `contains_key` check (`server.rs:97`) and, as a separate later
map operation, the `insert` (`server.rs:106`). -/
def acq_step (m : List Path) (p : Path) : AcqPhase → List Path × AcqPhase
  | .start => if dm_contains_key m p then (m, .failed) else (m, .checked)
  | .checked => (dm_insert m p, .acquired)
  | ph => (m, ph)

/-- Interleaved execution of two concurrent contenders for the same
path: the schedule says which contender performs its next map
operation. -/
def run_sched (p : Path) : List Bool → List Path × AcqPhase × AcqPhase →
    List Path × AcqPhase × AcqPhase
  | [], s => s
  | side :: rest, (m, a, b) =>
      if side then
        let r := acq_step m p a
        run_sched p rest (r.1, r.2, b)
      else
        let r := acq_step m p b
        run_sched p rest (r.1, a, r.2)

/-- Atomic insert-if-absent acquisition. Modelled from the spec:
"a path is locked if and only if the insert-if-absent succeeds for
that exact map entry" (§4.2); this is the primitive §9 asks for,
against which the code's two-step acquisition is compared. -/
def tryAcquireAtomic (m : List Path) (p : Path) : List Path × Bool :=
  if p ∈ m then (m, false) else (p :: m, true)

/-- The corrected local path of `upload_local_file`
(`grpc_client.rs:151-158`): remove one leading `'/'` (or `'\'`)
separator, so the supplied path is taken relative to the home
directory. -/
def corrected_path (local_path : String) : String :=
  if local_path.data.head? = some '/' then String.mk local_path.data.tail
  else if local_path.data.head? = some '\\' then String.mk local_path.data.tail
  else local_path

/-- The local source path `upload_local_file` actually opens:
`home_dir.join(corrected_path)` (`grpc_client.rs:161`). -/
def actual_path (home_dir : Path) (local_path : String) : Path :=
  pathJoinStr home_dir (corrected_path local_path)

/-- A chunk sequence that reaches its terminating chunk: every chunk
before the last has `eof = false` and the last has `eof = true`
(the shape of a stream the receive loop consumes to its `break`). -/
def terminatesWithEof : List FileChunk → Prop
  | [] => False
  | [c] => c.eof = true
  | c :: c2 :: cs => c.eof = false ∧ terminatesWithEof (c2 :: cs)

/-- An oracle in which every filesystem call succeeds and
canonicalization is the identity. -/
def envOk : Env where
  canonicalize := fun p => .ok p
  create_dir_all := fun _ => .ok ()
  file_create := fun _ => .ok ()
  write_all := fun _ _ => .ok ()
  read_dir := fun _ => .ok []

/-- An oracle in which every filesystem call succeeds and
canonicalization resolves `.`/`..` segments. -/
def envResolve : Env :=
  { envOk with canonicalize := fun p => .ok (resolveDots p) }

/-- An oracle whose directory listing contains one entry with
unreadable metadata followed by a readable one. -/
def envMetaErr : Env :=
  { envResolve with
    read_dir := fun _ => .ok [.ok "a" (.error "eacces"), .ok "b" (.ok ⟨false, 3⟩)] }

theorem chunk_size_pos : 0 < CHUNK_SIZE := by norm_num [CHUNK_SIZE]

theorem produce_chunks_fuel_shape (fn td : String) (fuel : Nat) (bs : List Nat)
    (h : bs.length ≤ fuel) :
    produce_chunks_fuel fn td fuel bs =
      (chunksOfAux fuel bs).map (fun d => ⟨fn, td, d, false⟩) ++ [⟨fn, td, [], true⟩] := by
  induction fuel generalizing bs with
  | zero =>
      have hbs : bs = [] := List.length_eq_zero.mp (Nat.le_zero.mp h)
      subst hbs
      simp [produce_chunks_fuel, chunksOfAux]
  | succ n ih =>
      cases bs with
      | nil => simp [produce_chunks_fuel, chunksOfAux]
      | cons b bt =>
          simp only [produce_chunks_fuel, chunksOfAux, List.map_cons, List.cons_append]
          have hlen : (List.drop CHUNK_SIZE (b :: bt)).length ≤ n := by
            rw [List.length_drop]
            have hc := chunk_size_pos
            simp only [List.length_cons] at h ⊢
            omega
          rw [ih _ hlen]

theorem chunksOfAux_flatten (fuel : Nat) (bs : List Nat) (h : bs.length ≤ fuel) :
    (chunksOfAux fuel bs).flatten = bs := by
  induction fuel generalizing bs with
  | zero =>
      have hbs : bs = [] := List.length_eq_zero.mp (Nat.le_zero.mp h)
      subst hbs
      simp [chunksOfAux]
  | succ n ih =>
      cases bs with
      | nil => simp [chunksOfAux]
      | cons b bt =>
          simp only [chunksOfAux, List.flatten_cons]
          have hlen : (List.drop CHUNK_SIZE (b :: bt)).length ≤ n := by
            rw [List.length_drop]
            have hc := chunk_size_pos
            simp only [List.length_cons] at h ⊢
            omega
          rw [ih _ hlen, List.take_append_drop]

theorem chunksOfAux_ne_nil (fuel : Nat) (bs : List Nat) (h : bs.length ≤ fuel)
    (hne : bs ≠ []) : chunksOfAux fuel bs ≠ [] := by
  cases fuel with
  | zero =>
      have hbs : bs = [] := List.length_eq_zero.mp (Nat.le_zero.mp h)
      exact absurd hbs hne
  | succ n =>
      cases bs with
      | nil => exact absurd rfl hne
      | cons b bt => simp [chunksOfAux]

theorem chunksOfAux_dropLast_full (fuel : Nat) (bs : List Nat) (h : bs.length ≤ fuel) :
    ∀ d ∈ (chunksOfAux fuel bs).dropLast, d.length = CHUNK_SIZE := by
  induction fuel generalizing bs with
  | zero =>
      have hbs : bs = [] := List.length_eq_zero.mp (Nat.le_zero.mp h)
      subst hbs
      simp [chunksOfAux]
  | succ n ih =>
      cases bs with
      | nil => simp [chunksOfAux]
      | cons b bt =>
          simp only [chunksOfAux]
          have hlen0 : (List.drop CHUNK_SIZE (b :: bt)).length ≤ n := by
            rw [List.length_drop]
            have hc := chunk_size_pos
            simp only [List.length_cons] at h ⊢
            omega
          by_cases hd : List.drop CHUNK_SIZE (b :: bt) = []
          · rw [hd]
            simp [chunksOfAux]
          · rw [List.dropLast_cons_of_ne_nil (chunksOfAux_ne_nil n _ hlen0 hd)]
            intro d hdm
            rcases List.mem_cons.mp hdm with h1 | h2
            · subst h1
              rw [List.length_take]
              have hgt : CHUNK_SIZE < (b :: bt).length := by
                by_contra hle
                exact hd (List.drop_eq_nil_iff.mpr (by omega))
              omega
            · have hlen : (List.drop CHUNK_SIZE (b :: bt)).length ≤ n := by
                rw [List.length_drop]
                have hc := chunk_size_pos
                simp only [List.length_cons] at h ⊢
                omega
              exact ih _ hlen d h2

theorem chunksOfAux_mem_ne_nil (fuel : Nat) (bs : List Nat) :
    ∀ d ∈ chunksOfAux fuel bs, d ≠ [] := by
  induction fuel generalizing bs with
  | zero =>
      cases bs <;> simp [chunksOfAux]
  | succ n ih =>
      cases bs with
      | nil => simp [chunksOfAux]
      | cons b bt =>
          simp only [chunksOfAux]
          intro d hdm
          rcases List.mem_cons.mp hdm with h1 | h2
          · subst h1
            have hc := chunk_size_pos
            simp [List.take_eq_nil_iff]
            omega
          · exact ih _ d h2

theorem upload_loop_cons_msg (env : Env) (base : Path) (st : SessionSt)
    (chunk : FileChunk) (rest : List StreamEvent) :
    upload_loop env base st (.msg chunk :: rest) =
      match upload_chunk_step env base st chunk with
      | .ret o => o
      | .brk st1 => upload_finish st1
      | .cont st1 => upload_loop env base st1 rest := rfl

theorem upload_loop_cons_ret (env : Env) (base : Path) (st : SessionSt)
    (chunk : FileChunk) (rest : List StreamEvent) (o : UploadOutcome)
    (h : upload_chunk_step env base st chunk = .ret o) :
    upload_loop env base st (.msg chunk :: rest) = o := by
  rw [upload_loop_cons_msg, h]

theorem upload_loop_cons_brk (env : Env) (base : Path) (st : SessionSt)
    (chunk : FileChunk) (rest : List StreamEvent) (st1 : SessionSt)
    (h : upload_chunk_step env base st chunk = .brk st1) :
    upload_loop env base st (.msg chunk :: rest) = upload_finish st1 := by
  rw [upload_loop_cons_msg, h]

theorem upload_loop_cons_cont (env : Env) (base : Path) (st : SessionSt)
    (chunk : FileChunk) (rest : List StreamEvent) (st1 : SessionSt)
    (h : upload_chunk_step env base st chunk = .cont st1) :
    upload_loop env base st (.msg chunk :: rest) = upload_loop env base st1 rest := by
  rw [upload_loop_cons_msg, h]

theorem upload_step_writing_brk (env : Env) (base : Path) (fn : String) (fp plock : Path)
    (bw : Nat) (locks : List Path) (events : List FsEvent) (c : FileChunk)
    (hw : env.write_all fp c.data = .ok ()) (he : c.eof = true) :
    upload_chunk_step env base ⟨some fn, some fp, bw, some plock, locks, events⟩ c =
      .brk ⟨some fn, some fp, bw + c.data.length, some plock, locks,
        events ++ [FsEvent.write fp c.data]⟩ := by
  simp [upload_chunk_step, first_chunk_setup, write_chunk, hw, he]

theorem upload_step_writing_cont (env : Env) (base : Path) (fn : String) (fp plock : Path)
    (bw : Nat) (locks : List Path) (events : List FsEvent) (c : FileChunk)
    (hw : env.write_all fp c.data = .ok ()) (he : c.eof = false) :
    upload_chunk_step env base ⟨some fn, some fp, bw, some plock, locks, events⟩ c =
      .cont ⟨some fn, some fp, bw + c.data.length, some plock, locks,
        events ++ [FsEvent.write fp c.data]⟩ := by
  simp [upload_chunk_step, first_chunk_setup, write_chunk, hw, he]

theorem upload_loop_writing (env : Env) (base : Path) (fn : String) (fp plock : Path)
    (bw : Nat) (locks : List Path) (events : List FsEvent)
    (cs : List FileChunk) (rest : List StreamEvent)
    (hwr : ∀ c ∈ cs, env.write_all fp c.data = .ok ())
    (heof : terminatesWithEof cs) :
    upload_loop env base ⟨some fn, some fp, bw, some plock, locks, events⟩
        (cs.map StreamEvent.msg ++ rest) =
      ⟨.ok ⟨true, "File uploaded successfully. Total bytes written: "
          ++ toString (bw + (cs.map (fun c => c.data.length)).sum) ++ "."⟩,
        dm_remove locks plock,
        events ++ cs.map (fun c => FsEvent.write fp c.data)⟩ := by
  induction cs generalizing bw events with
  | nil => exact absurd heof (by simp [terminatesWithEof])
  | cons c ct ih =>
      have hw := hwr c (by simp)
      rw [List.map_cons, List.cons_append]
      cases ct with
      | nil =>
          have heq : c.eof = true := heof
          rw [upload_loop_cons_brk env base _ c _ _
            (upload_step_writing_brk env base fn fp plock bw locks events c hw heq)]
          simp [upload_finish]
      | cons c2 ct2 =>
          obtain ⟨h1, h2⟩ := heof
          rw [upload_loop_cons_cont env base _ c _ _
            (upload_step_writing_cont env base fn fp plock bw locks events c hw h1)]
          have ihr := ih (bw + c.data.length) (events ++ [FsEvent.write fp c.data])
            (fun d hd => hwr d (List.mem_cons_of_mem _ hd)) h2
          rw [ihr]
          simp [Nat.add_assoc, List.append_assoc]

theorem upload_step_first_brk (env : Env) (base : Path) (locks : List Path) (c0 : FileChunk)
    (hfn : ¬ c0.filename = "")
    (hnl : lockPathOf env base c0 ∉ locks)
    (hmk : env.create_dir_all (uploadDirOf base c0) = .ok ())
    (hcr : env.file_create (finalPathOf base c0) = .ok ())
    (hw0 : env.write_all (finalPathOf base c0) c0.data = .ok ())
    (he : c0.eof = true) :
    upload_chunk_step env base ⟨none, none, 0, none, locks, []⟩ c0 =
      .brk ⟨some c0.filename, some (finalPathOf base c0), c0.data.length,
        some (lockPathOf env base c0), lockPathOf env base c0 :: locks,
        [.create_dir_all (uploadDirOf base c0), .file_create (finalPathOf base c0),
          .write (finalPathOf base c0) c0.data]⟩ := by
  simp [upload_chunk_step, first_chunk_setup, write_chunk, dm_contains_key, dm_insert,
    hfn, hnl, hmk, hcr, hw0, he]

theorem upload_step_first_cont (env : Env) (base : Path) (locks : List Path) (c0 : FileChunk)
    (hfn : ¬ c0.filename = "")
    (hnl : lockPathOf env base c0 ∉ locks)
    (hmk : env.create_dir_all (uploadDirOf base c0) = .ok ())
    (hcr : env.file_create (finalPathOf base c0) = .ok ())
    (hw0 : env.write_all (finalPathOf base c0) c0.data = .ok ())
    (he : c0.eof = false) :
    upload_chunk_step env base ⟨none, none, 0, none, locks, []⟩ c0 =
      .cont ⟨some c0.filename, some (finalPathOf base c0), c0.data.length,
        some (lockPathOf env base c0), lockPathOf env base c0 :: locks,
        [.create_dir_all (uploadDirOf base c0), .file_create (finalPathOf base c0),
          .write (finalPathOf base c0) c0.data]⟩ := by
  simp [upload_chunk_step, first_chunk_setup, write_chunk, dm_contains_key, dm_insert,
    hfn, hnl, hmk, hcr, hw0, he]

/-- Claim C8: an upload stream with a non-empty filename on the first
chunk that reaches its `eof = true` chunk with every filesystem call
succeeding replies `success = true`, reports a total byte count equal
to the sum of the `data` lengths of the processed chunks, created the
target directory and the target file (so a single empty `eof` chunk
creates an empty file and reports 0 bytes), and leaves the lock map
as it was. -/
theorem upload_reports_total_bytes (env : Env) (base : Path) (locks : List Path)
    (c0 : FileChunk) (cs : List FileChunk) (rest : List StreamEvent)
    (hfn : ¬ c0.filename = "")
    (hnl : lockPathOf env base c0 ∉ locks)
    (hmk : env.create_dir_all (uploadDirOf base c0) = .ok ())
    (hcr : env.file_create (finalPathOf base c0) = .ok ())
    (hwr : ∀ c ∈ c0 :: cs, env.write_all (finalPathOf base c0) c.data = .ok ())
    (heof : terminatesWithEof (c0 :: cs)) :
    upload_file env base locks ((c0 :: cs).map StreamEvent.msg ++ rest) =
      ⟨.ok ⟨true, "File uploaded successfully. Total bytes written: "
          ++ toString (((c0 :: cs).map (fun c => c.data.length)).sum) ++ "."⟩,
        locks,
        .create_dir_all (uploadDirOf base c0) :: .file_create (finalPathOf base c0) ::
          (c0 :: cs).map (fun c => FsEvent.write (finalPathOf base c0) c.data)⟩ := by
  have hw0 := hwr c0 (by simp)
  unfold upload_file
  rw [List.map_cons, List.cons_append]
  cases cs with
  | nil =>
      have heq : c0.eof = true := heof
      rw [upload_loop_cons_brk env base _ c0 _ _
        (upload_step_first_brk env base locks c0 hfn hnl hmk hcr hw0 heq)]
      simp [upload_finish, dm_remove]
  | cons c2 cs2 =>
      obtain ⟨h1, h2⟩ := heof
      rw [upload_loop_cons_cont env base _ c0 _ _
        (upload_step_first_cont env base locks c0 hfn hnl hmk hcr hw0 h1)]
      rw [upload_loop_writing env base c0.filename (finalPathOf base c0)
        (lockPathOf env base c0) c0.data.length (lockPathOf env base c0 :: locks)
        [.create_dir_all (uploadDirOf base c0), .file_create (finalPathOf base c0),
          .write (finalPathOf base c0) c0.data] (c2 :: cs2) rest
        (fun d hd => hwr d (List.mem_cons_of_mem _ hd)) h2]
      simp [dm_remove]

/-- Witness for C8: a single-chunk stream with `eof = true` and empty
data creates the empty target file and reports 0 bytes. -/
theorem upload_reports_total_bytes_witness :
    upload_file envOk ["home"] [] [.msg ⟨"f", "", [], true⟩] =
      ⟨.ok ⟨true, "File uploaded successfully. Total bytes written: 0."⟩, [],
        [.create_dir_all ["home"], .file_create ["home", "f"], .write ["home", "f"] []]⟩ := by
  have h := upload_reports_total_bytes envOk ["home"] [] ⟨"f", "", [], true⟩ [] []
    (by decide) (List.not_mem_nil _) rfl rfl (fun c _ => rfl) rfl
  exact h

/-- Claim C7: an upload stream whose first chunk carries an empty
filename fails with `InvalidArgument` at once: no lock is taken, no
directory or file is created, and the lock map is returned unchanged. -/
theorem upload_empty_filename (env : Env) (base : Path) (locks : List Path)
    (chunk : FileChunk) (rest : List StreamEvent) (h : chunk.filename = "") :
    upload_file env base locks (.msg chunk :: rest) =
      ⟨.error (.invalidArgument "Filename cannot be empty"), locks, []⟩ := by
  simp [upload_file, upload_loop, upload_chunk_step, first_chunk_setup, h]

/-- Witness for C7 at a concrete empty-filename stream. -/
theorem upload_empty_filename_witness :
    upload_file envOk ["home"] [] [.msg ⟨"", "", [1], true⟩] =
      ⟨.error (.invalidArgument "Filename cannot be empty"), [], []⟩ :=
  upload_empty_filename envOk ["home"] [] ⟨"", "", [1], true⟩ [] rfl

/-- Claim C4: the sandbox decision of `list_dir` is made on the
canonicalized joined path: a canonicalization failure yields
`NotFound`, a canonical path that does not start with the canonical
base yields `PermissionDenied`, and only a canonical path inside the
base is enumerated. -/
theorem list_dir_sandbox_decision (env : Env) (base : Path) (path_str : String) (cb : Path)
    (hb : env.canonicalize base = .ok cb) :
    (∀ e, env.canonicalize (full_path_of base path_str) = .error e →
        list_dir env base path_str =
          .error (.notFound ("Directory not found or inaccessible: " ++ path_str))) ∧
    (∀ cp, env.canonicalize (full_path_of base path_str) = .ok cp →
        List.isPrefixOf cb cp = false →
        list_dir env base path_str =
          .error (.permissionDenied "Access to this path is denied")) ∧
    (∀ cp, env.canonicalize (full_path_of base path_str) = .ok cp →
        List.isPrefixOf cb cp = true →
        list_dir env base path_str = read_and_collect env cp) := by
  refine ⟨fun e he => ?_, fun cp hcp hpre => ?_, fun cp hcp hpre => ?_⟩ <;>
    simp [list_dir, hb, *]

/-- Witness for C4: a traversal request whose canonical form escapes
the base is refused with `PermissionDenied`. -/
theorem list_dir_sandbox_decision_witness :
    list_dir envResolve ["home"] "../x" =
      .error (.permissionDenied "Access to this path is denied") :=
  (list_dir_sandbox_decision envResolve ["home"] "../x" ["home"] rfl).2.1 ["x"] rfl rfl

/-- Claim C1 (code bug): `upload_file` runs no sandbox check on the
resolved target path.  For a first chunk whose `target_dir` escapes
the base via `..`, canonicalization of the target succeeds and the
result does not start with the canonical base, yet the session
creates the escaping directory and file and reports success instead
of failing with `PermissionDenied` before any mutation. -/
theorem upload_missing_sandbox_check :
    upload_file envResolve ["home", "user"] [] [.msg ⟨"x", "../../etc", [], true⟩] =
      ⟨.ok ⟨true, "File uploaded successfully. Total bytes written: 0."⟩, [],
        [.create_dir_all ["home", "user", "..", "..", "etc"],
          .file_create ["home", "user", "..", "..", "etc", "x"],
          .write ["home", "user", "..", "..", "etc", "x"] []]⟩ ∧
    envResolve.canonicalize (finalPathOf ["home", "user"] ⟨"x", "../../etc", [], true⟩)
      = .ok ["etc", "x"] ∧
    List.isPrefixOf (resolveDots ["home", "user"]) ["etc", "x"] = false := by
  decide

/-- Claim C2 (code bug): a transport error surfaced by
`stream.message().await?` after the first chunk propagates through
`?` without removing the lock entry — the terminated call leaves its
canonical path in the `active_uploads` map. -/
theorem upload_stream_error_leaks_lock :
    upload_file envOk ["home", "user"] []
        [.msg ⟨"f.txt", "", [1, 2, 3], false⟩, .err "h2 protocol error"] =
      ⟨.error (.streamError "h2 protocol error"), [["home", "user", "f.txt"]],
        [.create_dir_all ["home", "user"], .file_create ["home", "user", "f.txt"],
          .write ["home", "user", "f.txt"] [1, 2, 3]]⟩ ∧
    [["home", "user", "f.txt"]] ≠ ([] : List Path) := by
  decide

/-- Claim C3 (code bug): lock acquisition in `upload_file` is a
`contains_key` check followed by a separate `insert`
(`server.rs:97-106`); under the interleaving in which both contenders
check before either inserts, both pass and both proceed to write,
whereas under the spec's atomic insert-if-absent the second contender
always fails. -/
theorem lock_check_then_insert_race :
    run_sched ["home", "user", "f.txt"] [true, false, true, false] ([], .start, .start) =
      ([["home", "user", "f.txt"]], .acquired, .acquired) ∧
    (tryAcquireAtomic [] ["home", "user", "f.txt"]).2 = true ∧
    (tryAcquireAtomic (tryAcquireAtomic [] ["home", "user", "f.txt"]).1
        ["home", "user", "f.txt"]).2 = false := by
  decide

/-- Counterexample to C5 as stated: for a 1-byte file (length neither
zero nor a multiple of `CHUNK_SIZE`) the final `eof = true` chunk has
empty data — the trailing partial block rides the chunk before it. -/
theorem produce_chunks_final_chunk_cex :
    produce_chunks "a" "d" [7] = [⟨"a", "d", [7], false⟩, ⟨"a", "d", [], true⟩] ∧
    ([7] : List Nat).length % CHUNK_SIZE ≠ 0 ∧ ([7] : List Nat).length ≠ 0 := by
  decide

/-- Claim C5 (amended): the producer emits the `CHUNK_SIZE` block
decomposition of the file (all blocks full except possibly the last,
none empty, concatenating back to the contents) as `eof = false`
chunks, always followed by one final `eof = true` chunk with empty
data. -/
theorem produce_chunks_shape (fn td : String) (bs : List Nat) :
    produce_chunks fn td bs =
      (chunksOf bs).map (fun d => ⟨fn, td, d, false⟩) ++ [⟨fn, td, [], true⟩] ∧
    (chunksOf bs).flatten = bs ∧
    (∀ d ∈ (chunksOf bs).dropLast, d.length = CHUNK_SIZE) ∧
    (∀ d ∈ chunksOf bs, d ≠ []) :=
  ⟨produce_chunks_fuel_shape fn td bs.length bs le_rfl,
   chunksOfAux_flatten bs.length bs le_rfl,
   chunksOfAux_dropLast_full bs.length bs le_rfl,
   chunksOfAux_mem_ne_nil bs.length bs⟩

/-- Witness for C5 at a concrete 1-byte file. -/
theorem produce_chunks_shape_witness :
    produce_chunks "a" "d" [7] =
      (chunksOf [7]).map (fun d => ⟨"a", "d", d, false⟩) ++ [⟨"a", "d", [], true⟩] ∧
    ([7] : List Nat) ≠ [] :=
  ⟨(produce_chunks_shape "a" "d" [7]).1,
   (produce_chunks_shape "a" "d" [7]).2.2.2 [7] (by decide)⟩

/-- Counterexample to C6 as stated: on a directory whose first entry
has unreadable metadata, the remote `list_dir` fails the whole call
with `Internal` instead of returning the remaining entries — while
the local variant does skip the entry and return the rest. -/
theorem remote_metadata_error_fails_call :
    list_dir envMetaErr ["home"] "/" = .error (.internal "Could not get file metadata") ∧
    localCollect [.ok "a" (.error "eacces"), .ok "b" (.ok ⟨false, 3⟩)] []
      = [⟨"b", false, 3⟩] := by
  decide

/-- Claim C6 (amended): the local listing skips an entry whose
metadata cannot be read and keeps collecting; the remote listing
skips an entry whose read itself failed, but an entry whose metadata
cannot be read aborts the whole remote call with `Internal`, wherever
it occurs. -/
theorem dir_listing_metadata_error_behavior (name e : String)
    (xs ys : List DirEntryRead) (acc : List LocalDirEntry) (acc2 : List DirEntry) :
    localCollect (.ok name (.error e) :: ys) acc = localCollect ys acc ∧
    serverCollect (xs ++ .ok name (.error e) :: ys) acc2
      = .error (.internal "Could not get file metadata") ∧
    serverCollect (.err e :: ys) acc2 = serverCollect ys acc2 := by
  refine ⟨by simp [localCollect], ?_, by simp [serverCollect]⟩
  induction xs generalizing acc2 with
  | nil => simp [serverCollect]
  | cons x xt ih =>
      cases x with
      | ok n m =>
          cases m with
          | error _ => simp [serverCollect]
          | ok md =>
              simp only [List.cons_append, serverCollect]
              exact ih _
      | err _ =>
          simp only [List.cons_append, serverCollect]
          exact ih _

/-- Counterexample to C9 as stated: the producer clones the filename
and the target directory into every chunk, so the second chunk also
carries the non-empty filename. -/
theorem chunk_metadata_on_every_chunk_cex :
    (produce_chunks "a" "d" [7]).map FileChunk.filename = ["a", "a"] ∧
    (produce_chunks "a" "d" [7]).map FileChunk.target_dir = ["d", "d"] ∧
    ("a" : String) ≠ "" := by
  decide

/-- Claim C9 (amended): within one produced stream every chunk
carries the same filename and the same target directory — the values
are set on every chunk, not only the first. -/
theorem produce_chunks_metadata (fn td : String) (bs : List Nat) :
    ∀ c ∈ produce_chunks fn td bs, c.filename = fn ∧ c.target_dir = td := by
  intro c hc
  rw [produce_chunks, produce_chunks_fuel_shape fn td bs.length bs le_rfl] at hc
  rcases List.mem_append.mp hc with h1 | h2
  · obtain ⟨d, _, rfl⟩ := List.mem_map.mp h1
    exact ⟨rfl, rfl⟩
  · rw [List.mem_singleton.mp h2]
    exact ⟨rfl, rfl⟩

/-- Witness for C9 at the second chunk of a concrete stream. -/
theorem produce_chunks_metadata_witness :
    (FileChunk.mk "a" "d" [] true).filename = "a" ∧
    (FileChunk.mk "a" "d" [] true).target_dir = "d" :=
  produce_chunks_metadata "a" "d" [7] ⟨"a", "d", [], true⟩ (by decide)

/-- Counterexample to C10 as stated: a supplied path with `..`
components resolves outside the home directory, so a file outside
home can be selected as the upload source. -/
theorem upload_source_escapes_home_cex :
    resolveDots (actual_path ["home", "user"] "../other/secret.txt")
      = ["home", "other", "secret.txt"] ∧
    List.isPrefixOf ["home", "user"]
      (resolveDots (actual_path ["home", "user"] "../other/secret.txt")) = false := by
  decide

/-- Claim C10 (amended): the opened source path is the home directory
joined with the supplied path after stripping one leading separator,
so a path spelled absolute is read the same as its home-relative
spelling; but a supplied path with `..` components still resolves
outside the home directory. -/
theorem upload_source_path (home : Path) (lp : String)
    (h1 : lp.data.head? ≠ some '/') (h2 : lp.data.head? ≠ some '\\') :
    actual_path home ("/" ++ lp) = actual_path home lp ∧
    resolveDots (actual_path ["home", "user"] "../other/secret.txt")
      = ["home", "other", "secret.txt"] ∧
    List.isPrefixOf ["home", "user"]
      (resolveDots (actual_path ["home", "user"] "../other/secret.txt")) = false := by
  refine ⟨?_, by decide, by decide⟩
  obtain ⟨d⟩ := lp
  have h1' : d.head? ≠ some '/' := h1
  have h2' : d.head? ≠ some '\\' := h2
  have hd : ("/" ++ String.mk d).data = '/' :: d := by
    rw [String.data_append]
    rfl
  have hc1 : corrected_path ("/" ++ String.mk d) = String.mk d := by
    unfold corrected_path
    rw [hd]
    simp
  have hc2 : corrected_path (String.mk d) = String.mk d := by
    unfold corrected_path
    rw [if_neg h1', if_neg h2']
  unfold actual_path
  rw [hc1, hc2]

/-- Witness for C10 at a concrete relative path. -/
theorem upload_source_path_witness :
    actual_path ["h"] ("/" ++ "docs/a.txt") = actual_path ["h"] "docs/a.txt" ∧
    resolveDots (actual_path ["home", "user"] "../other/secret.txt")
      = ["home", "other", "secret.txt"] ∧
    List.isPrefixOf ["home", "user"]
      (resolveDots (actual_path ["home", "user"] "../other/secret.txt")) = false :=
  upload_source_path ["h"] "docs/a.txt" (by decide) (by decide)

end RustSend
